import Mathlib

/-!
Shallow embedding of `sign_xpi_lib/sign_xpi_lib.py` (mozilla-services/sign-xpi-lib).

Python strings are modelled as `List Char` (`Str` below); bytes objects as
`List Nat` (one Nat per byte).  Each definition mirrors one function or
method of the source module.
-/

abbrev Str := List Char

/-- Python `s.upper()` restricted to the ASCII letters (the only characters
the reserved patterns contain); mirrors `filename.upper()` / `glob.upper()`. -/
def upperStr (s : Str) : Str := s.map Char.toUpper

/-- Python `s.lower()` restricted to the ASCII letters; mirrors
`filename.lower()` in `file_key`. -/
def lowerStr (s : Str) : Str := s.map Char.toLower

/-- All suffixes of a list, longest first (the list itself down to `[]`). -/
def allSuffixes : Str → List Str
  | [] => [[]]
  | c :: s => (c :: s) :: allSuffixes s

/-- `fnmatch.fnmatchcase` restricted to patterns whose only metacharacter is
`*` (the reserved patterns contain no `?`, `[`, or `]`).  `*` matches any
sequence of characters, including `/`, exactly as fnmatch translates `*`
to the regex `.*`: `'*' :: p` matches `s` iff `p` matches some suffix of
`s`. -/
def globMatch : Str → Str → Bool
  | [], s => s.isEmpty
  | c :: p, s =>
    if c == '*' then (allSuffixes s).any (fun t => globMatch p t)
    else
      match s with
      | [] => false
      | d :: s => c == d && globMatch p s

/-- The reserved glob patterns from `ignore_certain_metainf_files`. -/
def metainfIgnoreGlobs : List Str :=
  ["META-INF/manifest.mf".data,
   "META-INF/*.sf".data,
   "META-INF/*.rsa".data,
   "META-INF/*.dsa".data,
   "META-INF/ids.json".data]

/-- `ignore_certain_metainf_files(filename)`: true when the upper-cased name
matches one of the upper-cased reserved patterns. -/
def ignore_certain_metainf_files (filename : Str) : Bool :=
  metainfIgnoreGlobs.any (fun g => globMatch (upperStr g) (upperStr filename))

/-! ### POSIX path helpers (`os.path` on a POSIX host, as used by the module) -/

/-- `os.path.basename(p)`: everything after the last `/` (`p[p.rfind('/')+1:]`). -/
def pyBasename (p : Str) : Str :=
  (p.reverse.takeWhile (fun c => c ≠ '/')).reverse

/-- `os.path.split(p)`: split at the last `/`; the head keeps a run of
leading slashes but otherwise drops trailing slashes. -/
def pySplit (p : Str) : Str × Str :=
  let tail := pyBasename p
  let head := p.take (p.length - tail.length)
  if head ≠ [] ∧ ¬ head.all (fun c => c == '/') then
    ((head.reverse.dropWhile (fun c => c == '/')).reverse, tail)
  else
    (head, tail)

/-- Index of the last occurrence of `c` in `s`, or `-1` (Python `s.rfind(c)`). -/
def pyRfind (c : Char) (s : Str) : Int :=
  match s.reverse.findIdx? (fun d => d == c) with
  | some i => (s.length : Int) - 1 - (i : Int)
  | none => -1

/-- `os.path.splitext(p)` (POSIX `_splitext` with `sep='/'`, `extsep='.'`):
split at the last dot after the last slash, unless every character between
them is a dot (so a leading-dot filename keeps its dots). -/
def pySplitext (p : Str) : Str × Str :=
  let sepIndex := pyRfind '/' p
  let dotIndex := pyRfind '.' p
  if dotIndex > sepIndex then
    let fname := (p.drop (sepIndex + 1).toNat).take (dotIndex - sepIndex - 1).toNat
    if fname.all (fun c => c == '.') then (p, [])
    else (p.take dotIndex.toNat, p.drop dotIndex.toNat)
  else (p, [])

/-- `os.path.join(a, b)` for one joined component (POSIX semantics). -/
def pyJoin (a b : Str) : Str :=
  if b.head? = some '/' then b
  else if a = [] ∨ a.getLast? = some '/' then a ++ b
  else a ++ '/' :: b

/-! ### `file_key` (Entry Ordering) -/

/-- The priority bucket computed at the top of `file_key`. -/
def filePrio (filename : Str) : Nat :=
  if filename = "install.rdf".data then 1
  else if filename ∈ ["chrome.manifest".data, "icon.png".data, "icon64.png".data] then 2
  else if filename ∈ ["MPL".data, "GPL".data, "LGPL".data, "COPYING".data,
                      "LICENSE".data, "license.txt".data] then 5
  else 4

/-- `file_key(filename)`: the sort key
`(prio, os.path.split(filename.lower()))`. -/
def file_key (filename : Str) : Nat × Str × Str :=
  (filePrio filename, pySplit (lowerStr filename))

/-- Python tuple/string comparison of two `file_key` results: lexicographic
on the triple, with code-point-lexicographic order on the strings (the
`List Char` linear order is exactly lexicographic). -/
def keyLe (a b : Nat × Str × Str) : Prop :=
  a.1 < b.1 ∨ (a.1 = b.1 ∧ (a.2.1 < b.2.1 ∨ (a.2.1 = b.2.1 ∧ a.2.2 ≤ b.2.2)))

instance : DecidableRel keyLe := fun a b => by
  unfold keyLe; infer_instance

/-! ### base64 (`base64.b64encode`, decoded back to text) -/

/-- The standard base64 alphabet. -/
def b64alphabet : Str :=
  "ABCDEFGHIJKLMNOPQRSTUVWXYZabcdefghijklmnopqrstuvwxyz0123456789+/".data

/-- One base64 alphabet character. -/
def b64char (n : Nat) : Char := b64alphabet.getD n 'A'

/-- `b64encode(bytes).decode('utf-8')`: standard base64 with `=` padding. -/
def b64encode : List Nat → Str
  | [] => []
  | [a] => [b64char (a / 4), b64char (a % 4 * 16), '=', '=']
  | [a, b] => [b64char (a / 4), b64char (a % 4 * 16 + b / 16), b64char (b % 16 * 4), '=']
  | a :: b :: c :: rest =>
    [b64char (a / 4), b64char (a % 4 * 16 + b / 16), b64char (b % 16 * 4 + c / 64),
     b64char (c % 64)] ++ b64encode rest

/-! ### `Section` and its serialization -/

/-- A `Section`: one named record of digests.  `digests` models the Python
dict as an association list (dict keys are unique; `_digest` below always
produces the two distinct keys `md5` and `sha1`). -/
structure Section where
  name : Str
  digests : List (Str × List Nat)

/-- Dict lookup `digests[algo]` (first match; keys are unique). -/
def lookupDigest (digests : List (Str × List Nat)) (algo : Str) : List Nat :=
  (digests.lookup algo).getD []

/-- The `while name:` folding loop of `Section.__str__`, emitting chunks of
72 characters separated by a line break and one continuation space.  The
fuel argument only bounds the number of iterations; `s.length` always
suffices (each pass consumes 72 characters). -/
def foldNameAux : Nat → Str → Str
  | 0, s => s
  | fuel + 1, s =>
    if s.length ≤ 72 then s
    else s.take 72 ++ '\n' :: ' ' :: foldNameAux fuel (s.drop 72)

/-- The folded form of the `Name: …` line (`Section.__str__`, lines 94-98). -/
def foldName (s : Str) : Str := foldNameAux s.length s

/-- `order = list(self.digests.keys()); order.sort()`: the algorithm tokens
in ascending order.  Python `list.sort` is a stable ascending sort, which
`insertionSort` models exactly. -/
def sectionAlgoOrder (digests : List (Str × List Nat)) : List Str :=
  (digests.map Prod.fst).insertionSort (fun a b => a ≤ b)

/-- One `<ALGO>-Digest: <base64>` line (with its terminating newline). -/
def digestLine (digests : List (Str × List Nat)) (algo : Str) : Str :=
  upperStr algo ++ "-Digest: ".data ++ b64encode (lookupDigest digests algo) ++ ['\n']

/-- `Section.__str__`. -/
def sectionStr (sec : Section) : Str :=
  let order := sectionAlgoOrder sec.digests
  foldName ("Name: ".data ++ sec.name) ++ ['\n']
    ++ "Digest-Algorithms: ".data ++ List.intercalate " ".data (order.map upperStr) ++ ['\n']
    ++ (order.map (digestLine sec.digests)).flatten

/-! ### `Manifest` and `Signature` serialization -/

/-- `"{}-Version: {}".format(type(self).__name__.title(), self.version)`
with version `"1.0"`. -/
def versionLine (typeName : Str) : Str := typeName ++ "-Version: 1.0".data

/-- `Manifest.header` (decoded to text). -/
def manifestHeader : Str := versionLine "Manifest".data

/-- `Manifest.body`: the sections' serializations joined by `"\n"`. -/
def manifestBody (sections : List Section) : Str :=
  List.intercalate ['\n'] (sections.map sectionStr)

/-- `Manifest.__str__`: `"\n".join([header, "", body, ""])`. -/
def manifestStr (sections : List Section) : Str :=
  List.intercalate ['\n'] [manifestHeader, [], manifestBody sections, []]

/-- A `Signature`: sections plus the `digest_manifests` mapping (again an
association list standing for a dict with unique keys). -/
structure SignatureData where
  sections : List Section
  digest_manifests : List (Str × List Nat)

/-- Python tuple comparison on dict items, as used by
`sorted(self.digest_manifests.items())`: lexicographic on the pair, bytes
compared lexicographically. -/
def itemLe (a b : Str × List Nat) : Prop :=
  a.1 < b.1 ∨ (a.1 = b.1 ∧ a.2 ≤ b.2)

instance : DecidableRel itemLe := fun a b => by
  unfold itemLe; infer_instance

instance : IsTotal (Str × List Nat) itemLe where
  total a b := by
    unfold itemLe
    rcases lt_trichotomy a.1 b.1 with h | h | h
    · exact Or.inl (Or.inl h)
    · rcases le_total a.2 b.2 with h2 | h2
      · exact Or.inl (Or.inr ⟨h, h2⟩)
      · exact Or.inr (Or.inr ⟨h.symm, h2⟩)
    · exact Or.inr (Or.inl h)

instance : IsTrans (Str × List Nat) itemLe where
  trans a b c := by
    unfold itemLe
    rintro (h1 | ⟨e1, h1⟩) (h2 | ⟨e2, h2⟩)
    · exact Or.inl (lt_trans h1 h2)
    · exact Or.inl (e2 ▸ h1)
    · exact Or.inl (e1 ▸ h2)
    · exact Or.inr ⟨e1.trans e2, le_trans h1 h2⟩

/-- `Signature.digest_manifest`: one `<ALGO>-Digest-Manifest: <base64>` line
per item, items sorted ascending (Python `sorted` is a stable ascending
sort, which `insertionSort` models exactly). -/
def digestManifestLines (dm : List (Str × List Nat)) : List Str :=
  (dm.insertionSort itemLe).map
    (fun item => upperStr item.1 ++ "-Digest-Manifest: ".data ++ b64encode item.2)

/-- `Signature.header`: the version line, the digest-manifest lines and a
terminating empty segment, joined by `"\n"`. -/
def signatureHeader (sig : SignatureData) : Str :=
  List.intercalate ['\n']
    ([versionLine "Signature".data] ++ digestManifestLines sig.digest_manifests ++ [[]])

/-- `Signature.__str__`: the header plus one trailing line break. -/
def signatureStr (sig : SignatureData) : Str := signatureHeader sig ++ ['\n']

/-! ### `XPIFile` -/

/-- The two digest primitives (`hashlib.md5` / `hashlib.sha1`), external
library functions kept abstract: every theorem below holds for all digest
functions. -/
structure DigestEngine where
  md5 : List Nat → List Nat
  sha1 : List Nat → List Nat

/-- `_digest(data)`: the dict `{'md5': …, 'sha1': …}` as an association
list. -/
def _digest (E : DigestEngine) (data : List Nat) : List (Str × List Nat) :=
  [("md5".data, E.md5 data), ("sha1".data, E.sha1 data)]

/-- `directory_re.search(f.filename)`, for `re.compile(r"[\\/]$")`: the name
ends in a slash or backslash (Python `$` also matches just before one
trailing newline). -/
def directory_re_search (s : Str) : Bool :=
  match s.reverse with
  | [] => false
  | '\n' :: c :: _ => c == '/' || c == '\\'
  | c :: _ => c == '/' || c == '\\'

/-- UTF-8 encoding of text, `s.encode('utf-8')` as a byte list. -/
def utf8Bytes (s : Str) : List Nat :=
  (s.flatMap String.utf8EncodeChar).map (fun b => b.toNat)

/-- An `XPIFile`: the source archive's entry list (name and decompressed
content, in central-directory order) and the optional `ids` payload. -/
structure XPIFile where
  entries : List (Str × List Nat)
  ids : Option (List Nat)

/-- The loop of `XPIFile.__init__`: sort the entry list by
`file_key(zinfo.filename)` (Python `sorted` with a key function — a stable
ascending sort, modelled by `insertionSort` over `keyLe`), skip directories
and reserved META-INF names, digest each survivor into a `Section`, and
append a synthetic `META-INF/ids.json` section when `ids` is truthy (i.e.
not `None` and non-empty). -/
def xpiSections (E : DigestEngine) (x : XPIFile) : List Section :=
  let sorted := x.entries.insertionSort
    (fun a b => keyLe (file_key a.1) (file_key b.1))
  (sorted.filter
      (fun f => !(directory_re_search f.1 || ignore_certain_metainf_files f.1))).map
    (fun f => Section.mk f.1 (_digest E f.2))
  ++ (match x.ids with
      | some i => if i.isEmpty then [] else [Section.mk "META-INF/ids.json".data (_digest E i)]
      | none => [])

/-- `XPIFile._sign(item)`: digest the serialized text of a section. -/
def _sign (E : DigestEngine) (item : Section) : Section :=
  Section.mk item.name (_digest E (utf8Bytes (sectionStr item)))

/-- `XPIFile.manifest` (its section list; the cached property). -/
def xpiManifest (E : DigestEngine) (x : XPIFile) : List Section := xpiSections E x

/-- `XPIFile.signatures`: per-section digests of the manifest sections'
text, plus digests of the whole serialized manifest. -/
def xpiSignatures (E : DigestEngine) (x : XPIFile) : SignatureData :=
  SignatureData.mk ((xpiSections E x).map (_sign E))
    (_digest E (utf8Bytes (manifestStr (xpiManifest E x))))

/-- `XPIFile.signature`: `self.signatures.header + b"\n"` (as text). -/
def xpiSignature (E : DigestEngine) (x : XPIFile) : Str :=
  signatureHeader (xpiSignatures E x) ++ ['\n']

/-! ### `XPIFile.make_signed` -/

/-- Content written into the output archive: raw bytes (`signature`,
copied entries, `signed_manifest`, `ids`) or text (the manifest, which
`writestr` encodes as UTF-8). -/
inductive ZContent where
  | bytes (b : List Nat)
  | text (s : Str)
deriving DecidableEq

/-- `XPIFile.make_signed(outpath, sigpath, signed_manifest, signature)`.

The filesystem is modelled as the list of existing paths `fs`; the result
pairs the outcome (the ordered entry list written to the output archive,
or the raised error's message) with the filesystem afterwards.  The copy
loop over `zin.infolist()` is a fold appending one entry per surviving
source entry, mirroring the sequential `zout.writestr` calls. -/
def make_signed (E : DigestEngine) (x : XPIFile) (fs : List Str)
    (outpath sigpath : Str) (signed_manifest signatureBlob : List Nat) :
    Except Str (List (Str × ZContent)) × List Str :=
  if outpath.isEmpty then (.error "No output file specified".data, fs)
  else if outpath ∈ fs then (.error "File already exists".data, fs)
  else
    let base := (pySplitext (pyBasename sigpath)).1
    let sigp := pyJoin "META-INF".data base
    let out0 := [(sigp ++ ".rsa".data, ZContent.bytes signatureBlob)]
    let out1 := x.entries.foldl
      (fun acc f =>
        if ignore_certain_metainf_files f.1 then acc
        else acc ++ [(f.1, ZContent.bytes f.2)])
      out0
    let out2 := out1 ++
      [("META-INF/manifest.mf".data, ZContent.text (manifestStr (xpiManifest E x))),
       (sigp ++ ".sf".data, ZContent.bytes signed_manifest)]
    let out3 := out2 ++
      (match x.ids with
       | some i => [("META-INF/ids.json".data, ZContent.bytes i)]
       | none => [])
    (.ok out3, fs ++ [outpath])

/-- The byte-level folding the specification describes for `Name:` lines,
stated over the UTF-8 encoding.  Modelled from the spec: "emit the first 72
bytes, then a line break, then a single continuation space, then the next
72 bytes, repeating" — kept separate from `foldName` (the code's folding,
which slices characters) so the two can be compared. -/
def specFoldBytesAux : Nat → List Nat → List Nat
  | 0, bs => bs
  | fuel + 1, bs =>
    if bs.length ≤ 72 then bs
    else bs.take 72 ++ 10 :: 32 :: specFoldBytesAux fuel (bs.drop 72)

/-- Entry point for the spec-worded byte folding. -/
def specFoldNameBytes (bs : List Nat) : List Nat := specFoldBytesAux bs.length bs

/-- A concrete digest engine used to instantiate witnesses. -/
def trivialEngine : DigestEngine where
  md5 := fun _ => []
  sha1 := fun _ => []

/-! ## Sanity checks of the embedding against the source and its test suite -/

example : ignore_certain_metainf_files "META-INF/manifest.mf".data = true := by decide
example : ignore_certain_metainf_files "meta-inf/MANIFEST.MF".data = true := by decide
example : ignore_certain_metainf_files "META-INF/sub/foo.rsa".data = true := by decide
example : ignore_certain_metainf_files "content.js".data = false := by decide
example : ignore_certain_metainf_files "META-INF/ids.jsonx".data = false := by decide
example : pySplit "a/b/c".data = ("a/b".data, "c".data) := by decide
example : pySplit "a//b".data = ("a".data, "b".data) := by decide
example : pySplit "/b".data = ("/".data, "b".data) := by decide
example : pySplitext "mozilla.rsa".data = ("mozilla".data, ".rsa".data) := by decide
example : pySplitext ".bashrc".data = (".bashrc".data, []) := by decide
example : pyJoin "META-INF".data "mozilla".data = "META-INF/mozilla".data := by decide
example : file_key "install.rdf".data = (1, [], "install.rdf".data) := by decide
example : file_key "Icons/Hi.PNG".data = (4, "icons".data, "hi.png".data) := by decide
example : keyLe (file_key "content.js".data) (file_key "icons/a.png".data) := by decide
example : b64encode [77, 97, 110] = "TWFu".data := by decide
example : b64encode [77, 97] = "TWE=".data := by decide
example : b64encode [77] = "TQ==".data := by decide

example :
    sectionStr ⟨"content.js".data, [("sha1".data, [77]), ("md5".data, [77, 97])]⟩ =
      ("Name: content.js\nDigest-Algorithms: MD5 SHA1\nMD5-Digest: TWE=\n"
        ++ "SHA1-Digest: TQ==\n").data := by decide

example :
    signatureStr ⟨[], [("sha1".data, [77]), ("md5".data, [77, 97])]⟩ =
      ("Signature-Version: 1.0\nMD5-Digest-Manifest: TWE=\n"
        ++ "SHA1-Digest-Manifest: TQ==\n\n").data := by decide

example :
    manifestStr [⟨"a.js".data, [("md5".data, [77])]⟩] =
      ("Manifest-Version: 1.0\n\nName: a.js\nDigest-Algorithms: MD5\n"
        ++ "MD5-Digest: TQ==\n\n").data := by decide

/-! ## Helper lemmas -/

theorem toNat_ofNat_valid {n : Nat} (h : n.isValidChar) : (Char.ofNat n).toNat = n := by
  rw [Char.ofNat, dif_pos h]
  rfl

theorem toUpper_idem (c : Char) : c.toUpper.toUpper = c.toUpper := by
  unfold Char.toUpper
  by_cases h : c.toNat ≥ 97 ∧ c.toNat ≤ 122
  · rw [if_pos h]
    have hv : (Char.ofNat (c.toNat - 32)).toNat = c.toNat - 32 := by
      apply toNat_ofNat_valid
      left
      omega
    rw [if_neg]
    omega
  · rw [if_neg h, if_neg h]

theorem upperStr_idem (s : Str) : upperStr (upperStr s) = upperStr s := by
  simp [upperStr, Function.comp_def, toUpper_idem]

/-- C6: For every entry name, the reserved-name filter matches
case-insensitively — any two names with the same upper-cased form are
treated identically — and `meta-inf/manifest.mf` is excluded exactly as
`META-INF/MANIFEST.MF` is. -/
theorem metainf_filter_case_insensitive :
    (∀ s t : Str, upperStr s = upperStr t →
      ignore_certain_metainf_files s = ignore_certain_metainf_files t)
    ∧ ignore_certain_metainf_files "meta-inf/manifest.mf".data = true
    ∧ ignore_certain_metainf_files "META-INF/MANIFEST.MF".data = true := by
  refine ⟨fun s t h => ?_, by decide, by decide⟩
  unfold ignore_certain_metainf_files
  rw [h]

theorem metainf_filter_case_insensitive_witness :
    ignore_certain_metainf_files "meta-inf/manifest.mf".data
      = ignore_certain_metainf_files "META-INF/MANIFEST.MF".data :=
  metainf_filter_case_insensitive.1 "meta-inf/manifest.mf".data
    "META-INF/MANIFEST.MF".data (by decide)

/-- C10: `xpi.signature` (the reduced form, `signatures.header + b"\n"`)
equals the full string serialization `str(xpi.signatures)`, and converting
a `Signature` to text never depends on its per-section records — only the
header block plus one trailing line break is emitted. -/
theorem signature_equals_str_of_signatures :
    (∀ (E : DigestEngine) (x : XPIFile),
      xpiSignature E x = signatureStr (xpiSignatures E x))
    ∧ (∀ (dm : List (Str × List Nat)) (s1 s2 : List Section),
      signatureStr ⟨s1, dm⟩ = signatureStr ⟨s2, dm⟩) :=
  ⟨fun _ _ => rfl, fun _ _ _ => rfl⟩

/-- C7: `make_signed` raises in exactly two precondition-violation cases —
an argument error when no output path is given, and an already-exists
error when the output path exists — and in both error cases the filesystem
is left unmodified; in every other case it succeeds and creates exactly
the output path. -/
theorem make_signed_error_cases :
    ∀ (E : DigestEngine) (x : XPIFile) (fs : List Str)
      (outpath sigpath : Str) (sm sig : List Nat),
      (outpath.isEmpty = true →
        make_signed E x fs outpath sigpath sm sig
          = (.error "No output file specified".data, fs))
      ∧ (outpath.isEmpty = false → outpath ∈ fs →
        make_signed E x fs outpath sigpath sm sig
          = (.error "File already exists".data, fs))
      ∧ (outpath.isEmpty = false → outpath ∉ fs →
        ∃ out, make_signed E x fs outpath sigpath sm sig
          = (.ok out, fs ++ [outpath])) := by
  intro E x fs outpath sigpath sm sig
  refine ⟨fun h1 => ?_, fun h1 h2 => ?_, fun h1 h2 => ?_⟩
  · rw [make_signed, if_pos h1]
  · rw [make_signed, if_neg (by simp [h1]), if_pos h2]
  · exact ⟨_, by rw [make_signed, if_neg (by simp [h1]), if_neg h2]⟩

theorem make_signed_error_cases_witness :
    ("out.xpi".data.isEmpty = false ∧ "out.xpi".data ∈ ["out.xpi".data])
    ∧ make_signed trivialEngine ⟨[], none⟩ ["out.xpi".data] "out.xpi".data
        "mozilla.rsa".data [] []
      = (.error "File already exists".data, ["out.xpi".data]) :=
  ⟨⟨by decide, by decide⟩,
    (make_signed_error_cases trivialEngine ⟨[], none⟩ ["out.xpi".data]
      "out.xpi".data "mozilla.rsa".data [] []).2.1 (by decide) (by decide)⟩

/-- C8: the algorithm order used by `Section.__str__` (for both the
`Digest-Algorithms:` line and the `<ALGO>-Digest:` lines, which are all
generated from `sectionAlgoOrder`) is always the ascending sort of the
digest keys, independent of insertion order; likewise the items behind a
`Signature`'s `<ALGO>-Digest-Manifest:` lines are sorted ascending by
algorithm token. -/
theorem digest_algorithms_sorted :
    (∀ d : List (Str × List Nat),
      (sectionAlgoOrder d).Sorted (· ≤ ·)
      ∧ (sectionAlgoOrder d).Perm (d.map Prod.fst))
    ∧ (∀ d d' : List (Str × List Nat),
      d.Perm d' → sectionAlgoOrder d = sectionAlgoOrder d')
    ∧ (∀ dm : List (Str × List Nat),
      ((dm.insertionSort itemLe).map Prod.fst).Sorted (· ≤ ·)) := by
  have hsort : ∀ d : List (Str × List Nat), (sectionAlgoOrder d).Sorted (· ≤ ·) :=
    fun d => List.sorted_insertionSort (· ≤ ·) (d.map Prod.fst)
  have hperm : ∀ d : List (Str × List Nat), (sectionAlgoOrder d).Perm (d.map Prod.fst) :=
    fun d => List.perm_insertionSort (fun a b => a ≤ b) (d.map Prod.fst)
  refine ⟨fun d => ⟨hsort d, hperm d⟩, fun d d' h => ?_, fun dm => ?_⟩
  · exact List.eq_of_perm_of_sorted
      (((hperm d).trans (h.map Prod.fst)).trans (hperm d').symm)
      (hsort d) (hsort d')
  · have hpw : (dm.insertionSort itemLe).Pairwise itemLe :=
      List.sorted_insertionSort itemLe dm
    exact List.Pairwise.map Prod.fst
      (fun a b hab => by
        rcases hab with h | ⟨h, _⟩
        · exact le_of_lt h
        · exact le_of_eq h) hpw

theorem digest_algorithms_sorted_witness :
    ([("sha1".data, [1]), ("md5".data, [2])] : List (Str × List Nat)).Perm
        [("md5".data, [2]), ("sha1".data, [1])]
    ∧ sectionAlgoOrder [("sha1".data, [1]), ("md5".data, [2])]
        = sectionAlgoOrder [("md5".data, [2]), ("sha1".data, [1])] :=
  ⟨by decide,
    digest_algorithms_sorted.2.1 [("sha1".data, [1]), ("md5".data, [2])]
      [("md5".data, [2]), ("sha1".data, [1])] (by decide)⟩

theorem keyLe_total (u v : Nat × Str × Str) : keyLe u v ∨ keyLe v u := by
  unfold keyLe
  rcases lt_trichotomy u.1 v.1 with h | h | h
  · exact Or.inl (Or.inl h)
  · rcases lt_trichotomy u.2.1 v.2.1 with h2 | h2 | h2
    · exact Or.inl (Or.inr ⟨h, Or.inl h2⟩)
    · rcases le_total u.2.2 v.2.2 with h3 | h3
      · exact Or.inl (Or.inr ⟨h, Or.inr ⟨h2, h3⟩⟩)
      · exact Or.inr (Or.inr ⟨h.symm, Or.inr ⟨h2.symm, h3⟩⟩)
    · exact Or.inr (Or.inr ⟨h.symm, Or.inl h2⟩)
  · exact Or.inr (Or.inl h)

theorem keyLe_trans (u v w : Nat × Str × Str) :
    keyLe u v → keyLe v w → keyLe u w := by
  unfold keyLe
  rintro (h1 | ⟨e1, inner1⟩) (h2 | ⟨e2, inner2⟩)
  · exact Or.inl (lt_trans h1 h2)
  · exact Or.inl (e2 ▸ h1)
  · exact Or.inl (lt_of_le_of_lt e1.le h2)
  · refine Or.inr ⟨e1.trans e2, ?_⟩
    rcases inner1 with d1 | ⟨f1, g1⟩ <;> rcases inner2 with d2 | ⟨f2, g2⟩
    · exact Or.inl (lt_trans d1 d2)
    · exact Or.inl (lt_of_lt_of_le d1 f2.le)
    · exact Or.inl (lt_of_le_of_lt f1.le d2)
    · exact Or.inr ⟨f1.trans f2, g1.trans g2⟩

/-- C5 counterexample: the comparator induced by `file_key` is not a strict
total order — the distinct names `A` and `a` receive the same sort key, so
there is no fallback tie-break on the original, unfolded name. -/
theorem file_key_not_strict_counterexample :
    file_key "A".data = file_key "a".data ∧ "A".data ≠ ("a".data : Str) := by
  decide

/-- C5 (amended): the comparator induced by `file_key` is a total preorder
(total and transitive), but not antisymmetric: distinct names with the
same priority bucket and identical case-folded (directory, basename) split
compare equal — the code has no fallback to the original, unfolded full
name. -/
theorem file_key_total_preorder :
    (∀ a b : Str, keyLe (file_key a) (file_key b) ∨ keyLe (file_key b) (file_key a))
    ∧ (∀ a b c : Str,
      keyLe (file_key a) (file_key b) → keyLe (file_key b) (file_key c) →
        keyLe (file_key a) (file_key c))
    ∧ (∃ a b : Str, a ≠ b ∧ file_key a = file_key b) :=
  ⟨fun a b => keyLe_total (file_key a) (file_key b),
   fun a b c h1 h2 => keyLe_trans (file_key a) (file_key b) (file_key c) h1 h2,
   ⟨"A".data, "a".data, by decide, by decide⟩⟩

theorem file_key_total_preorder_witness :
    keyLe (file_key "a.txt".data) (file_key "icons/a.png".data) :=
  file_key_total_preorder.2.1 "a.txt".data "b.txt".data "icons/a.png".data
    (by decide) (by decide)

theorem b64char_ne_newline (n : Nat) : b64char n ≠ '\n' := by
  unfold b64char
  rcases h : b64alphabet[n]? with _ | c
  · simp [List.getD, h]
  · have hm : c ∈ b64alphabet := List.getElem?_mem h
    have : c ≠ '\n' := by
      intro he
      rw [he] at hm
      revert hm
      decide
    simpa [List.getD, h]

theorem mem_b64encode_ne_newline :
    ∀ (bs : List Nat), ∀ c ∈ b64encode bs, c ≠ '\n' := by
  intro bs
  induction bs using b64encode.induct with
  | case1 => intro c hc; simp [b64encode] at hc
  | case2 a =>
    intro c hc
    simp [b64encode] at hc
    rcases hc with h | h | h
    · exact h ▸ b64char_ne_newline _
    · exact h ▸ b64char_ne_newline _
    · intro he; rw [h] at he; exact absurd he (by decide)
  | case3 a b =>
    intro c hc
    simp [b64encode] at hc
    rcases hc with h | h | h | h
    · exact h ▸ b64char_ne_newline _
    · exact h ▸ b64char_ne_newline _
    · exact h ▸ b64char_ne_newline _
    · intro he; rw [h] at he; exact absurd he (by decide)
  | case4 a b cc rest ih =>
    intro c hc
    simp [b64encode] at hc
    rcases hc with h | h | h | h | h
    · exact h ▸ b64char_ne_newline _
    · exact h ▸ b64char_ne_newline _
    · exact h ▸ b64char_ne_newline _
    · exact h ▸ b64char_ne_newline _
    · exact ih c h

theorem digestLine_ends (digests : List (Str × List Nat)) (algo : Str) :
    ∃ t c, digestLine digests algo = t ++ [c, '\n'] ∧ c ≠ '\n' := by
  by_cases h : b64encode (lookupDigest digests algo) = []
  · refine ⟨upperStr algo ++ "-Digest:".data, ' ', ?_, by decide⟩
    have hsp : ("-Digest: ".data : Str) = "-Digest:".data ++ [' '] := by decide
    simp [digestLine, h, hsp, List.append_assoc]
  · have hl := List.dropLast_append_getLast h
    have hnl : (b64encode (lookupDigest digests algo)).getLast h ≠ '\n' :=
      mem_b64encode_ne_newline _ _ (List.getLast_mem h)
    refine ⟨upperStr algo ++ "-Digest: ".data
        ++ (b64encode (lookupDigest digests algo)).dropLast,
      (b64encode (lookupDigest digests algo)).getLast h, ?_, hnl⟩
    conv_lhs => rw [digestLine, ← hl]
    simp [List.append_assoc]

theorem flatten_ends (ls : List Str)
    (h : ∀ l ∈ ls, ∃ t c, l = t ++ [c, '\n'] ∧ c ≠ '\n') :
    ls.flatten = [] ∨ ∃ t c, ls.flatten = t ++ [c, '\n'] ∧ c ≠ '\n' := by
  induction ls with
  | nil => exact Or.inl rfl
  | cons a ls ih =>
    rcases h a (List.mem_cons_self a ls) with ⟨t, c, ha, hc⟩
    rcases ih (fun l hl => h l (List.mem_cons_of_mem a hl)) with he | ⟨t2, c2, h2, hc2⟩
    · exact Or.inr ⟨t, c, by simp [List.flatten_cons, he, ha], hc⟩
    · exact Or.inr ⟨a ++ t2, c2, by simp [List.flatten_cons, h2, List.append_assoc], hc2⟩

theorem sectionStr_ends (sec : Section) :
    ∃ t c, sectionStr sec = t ++ [c, '\n'] ∧ c ≠ '\n' := by
  have hmem : ∀ l ∈ (sectionAlgoOrder sec.digests).map (digestLine sec.digests),
      ∃ t c, l = t ++ [c, '\n'] ∧ c ≠ '\n' := by
    intro l hl
    rcases List.mem_map.1 hl with ⟨algo, _, rfl⟩
    exact digestLine_ends sec.digests algo
  rcases flatten_ends _ hmem with he | ⟨t, c, h2, hc⟩
  · have horder : sectionAlgoOrder sec.digests = [] := by
      cases ho : sectionAlgoOrder sec.digests with
      | nil => rfl
      | cons a rest =>
        exfalso
        rcases digestLine_ends sec.digests a with ⟨t, c, hdl, _⟩
        rw [ho, List.map_cons, List.flatten_cons] at he
        have : digestLine sec.digests a = [] := by
          rcases List.append_eq_nil.1 he with ⟨h1, _⟩
          exact h1
        rw [hdl] at this
        simp at this
    refine ⟨foldName ("Name: ".data ++ sec.name) ++ ['\n'] ++ "Digest-Algorithms:".data,
      ' ', ?_, by decide⟩
    have hsp : ("Digest-Algorithms: ".data : Str) = "Digest-Algorithms:".data ++ [' '] := by
      decide
    simp [sectionStr, horder, hsp, List.intercalate, List.append_assoc]
  · refine ⟨foldName ("Name: ".data ++ sec.name) ++ ['\n']
      ++ "Digest-Algorithms: ".data
      ++ List.intercalate " ".data ((sectionAlgoOrder sec.digests).map upperStr) ++ ['\n']
      ++ t, c, ?_, hc⟩
    simp [sectionStr, h2, List.append_assoc]

theorem sectionStr_ends_newline (sec : Section) :
    ∃ t, sectionStr sec = t ++ ['\n'] := by
  rcases sectionStr_ends sec with ⟨t, c, h, _⟩
  exact ⟨t ++ [c], by simp [h, List.append_assoc]⟩

theorem intercalate_cons_cons (sep x y : Str) (l : List Str) :
    List.intercalate sep (x :: y :: l) = x ++ sep ++ List.intercalate sep (y :: l) := by
  simp [List.intercalate, List.intersperse_cons_cons, List.flatten_cons, List.append_assoc]

theorem manifestBody_cons_cons (s1 s2 : Section) (rest : List Section) :
    manifestBody (s1 :: s2 :: rest) = sectionStr s1 ++ '\n' :: manifestBody (s2 :: rest) := by
  unfold manifestBody
  rw [List.map_cons, List.map_cons, intercalate_cons_cons]
  simp [List.append_assoc]

theorem manifestBody_ends (s : Section) (rest : List Section) :
    ∃ t c, manifestBody (s :: rest) = t ++ [c, '\n'] ∧ c ≠ '\n' := by
  induction rest generalizing s with
  | nil =>
    rcases sectionStr_ends s with ⟨t, c, h, hc⟩
    exact ⟨t, c, by simp [manifestBody, List.intercalate, h], hc⟩
  | cons s2 rest ih =>
    rcases ih s2 with ⟨t, c, h, hc⟩
    refine ⟨sectionStr s ++ '\n' :: t, c, ?_, hc⟩
    rw [manifestBody_cons_cons, h]
    simp [List.append_assoc]

/-- C2 counterexample: in a concrete two-section manifest the last digest
line of the first section is NOT immediately followed by the second
section's `Name:` line — a blank line sits between the sections, because
each section's serialization already ends with a line break before the
joining line break is added. -/
theorem manifest_body_blank_line_counterexample :
    manifestBody [⟨"a.js".data, [("md5".data, [77])]⟩,
                  ⟨"b.js".data, [("md5".data, [78])]⟩]
      = ("Name: a.js\nDigest-Algorithms: MD5\nMD5-Digest: TQ==\n"
          ++ "\nName: b.js\nDigest-Algorithms: MD5\nMD5-Digest: Tg==\n").data
    ∧ List.IsInfix "\n\nName: b.js".data
        (manifestBody [⟨"a.js".data, [("md5".data, [77])]⟩,
                       ⟨"b.js".data, [("md5".data, [78])]⟩]) := by
  constructor
  · decide
  · decide

/-- C2 (amended): the serialized body is the Sections' serializations joined
by a single line break; since each Section's serialization itself ends
with a line break, the last digest line of one section is followed by
exactly one blank line and then the next Section's `Name:` line. -/
theorem manifest_body_section_separation :
    ∀ (s1 s2 : Section) (rest : List Section),
      manifestBody (s1 :: s2 :: rest) = sectionStr s1 ++ '\n' :: manifestBody (s2 :: rest)
      ∧ ∃ t, sectionStr s1 = t ++ ['\n']
        ∧ manifestBody (s1 :: s2 :: rest) = t ++ '\n' :: '\n' :: manifestBody (s2 :: rest) := by
  intro s1 s2 rest
  rcases sectionStr_ends_newline s1 with ⟨t, ht⟩
  refine ⟨manifestBody_cons_cons s1 s2 rest, t, ht, ?_⟩
  rw [manifestBody_cons_cons, ht]
  simp [List.append_assoc]

theorem manifestStr_eq (sections : List Section) :
    manifestStr sections
      = manifestHeader ++ '\n' :: '\n' :: (manifestBody sections ++ ['\n']) := by
  unfold manifestStr
  rw [intercalate_cons_cons, intercalate_cons_cons, intercalate_cons_cons]
  simp [List.intercalate, List.append_assoc]

/-- C4 counterexample: a Manifest built from an archive with zero qualifying
entries does NOT end with exactly two consecutive line breaks — its text is
the header followed by three line breaks (two blank lines). -/
theorem manifest_trailing_counterexample :
    manifestStr [] = "Manifest-Version: 1.0".data ++ ['\n', '\n', '\n']
    ∧ List.IsSuffix ['\n', '\n', '\n'] (manifestStr []) := by
  constructor
  · decide
  · decide

/-- C4 (amended): for every Manifest with at least one section the
serialized text ends with exactly one blank line — exactly two consecutive
line breaks, the character before them not being a line break; with zero
sections the text is the header followed by three consecutive line
breaks. -/
theorem manifest_trailing_blank_line :
    (∀ (s : Section) (rest : List Section),
      ∃ t c, manifestStr (s :: rest) = t ++ [c, '\n', '\n'] ∧ c ≠ '\n')
    ∧ manifestStr [] = manifestHeader ++ ['\n', '\n', '\n'] := by
  constructor
  · intro s rest
    rcases manifestBody_ends s rest with ⟨t, c, h, hc⟩
    refine ⟨manifestHeader ++ '\n' :: '\n' :: t, c, ?_, hc⟩
    rw [manifestStr_eq, h]
    simp [List.append_assoc]
  · decide

theorem foldNameAux_of_le (s : Str) (h : s.length ≤ 72) :
    ∀ m, foldNameAux m s = s
  | 0 => rfl
  | m + 1 => by rw [foldNameAux, if_pos h]

theorem foldName_of_le (s : Str) (h : s.length ≤ 72) : foldName s = s :=
  foldNameAux_of_le s h s.length

theorem foldNameAux_eq_foldName :
    ∀ (n : Nat) (s : Str), s.length ≤ n → foldNameAux n s = foldName s := by
  intro n
  induction n using Nat.strong_induction_on with
  | _ n ih =>
    intro s hs
    cases n with
    | zero =>
      have hs0 : s = [] := by
        cases s with
        | nil => rfl
        | cons a t => simp at hs
      subst hs0
      rfl
    | succ k =>
      by_cases h72 : s.length ≤ 72
      · rw [foldNameAux, if_pos h72, foldName_of_le s h72]
      · push_neg at h72
        rw [foldNameAux, if_neg (by omega)]
        rw [ih k (by omega) (s.drop 72) (by simp; omega)]
        obtain ⟨m, hm⟩ : ∃ m, s.length = m + 1 := ⟨s.length - 1, by omega⟩
        conv_rhs => rw [foldName, hm, foldNameAux]
        rw [if_neg (by omega)]
        rw [ih m (by omega) (s.drop 72) (by simp; omega)]

theorem foldName_of_gt (s : Str) (h : 72 < s.length) :
    foldName s = s.take 72 ++ '\n' :: ' ' :: foldName (s.drop 72) := by
  rw [foldName]
  obtain ⟨m, hm⟩ : ∃ m, s.length = m + 1 := ⟨s.length - 1, by omega⟩
  rw [hm, foldNameAux, if_neg (by omega)]
  rw [foldNameAux_eq_foldName m (s.drop 72) (by simp; omega)]

set_option maxRecDepth 4000 in
/-- C3 counterexample: a section whose name is 66 copies of `é` gives a
`Name:` line of 72 characters but 138 UTF-8 bytes.  Exceeding 72 bytes, the
claim demands folding, but the code slices characters and emits the line
unfolded; the spec-worded byte folding (`specFoldNameBytes`) disagrees with
the emitted bytes. -/
theorem section_fold_bytes_counterexample :
    (utf8Bytes ("Name: ".data ++ List.replicate 66 'é')).length = 138
    ∧ sectionStr ⟨List.replicate 66 'é', []⟩
        = ("Name: ".data ++ List.replicate 66 'é') ++ '\n' :: "Digest-Algorithms: \n".data
    ∧ utf8Bytes ("Name: ".data ++ List.replicate 66 'é')
        ≠ specFoldNameBytes (utf8Bytes ("Name: ".data ++ List.replicate 66 'é')) := by
  refine ⟨by decide, by decide, by decide⟩

/-- C3 (amended): the serialization folds the `Name:` line measured in
characters (Unicode code points), not UTF-8 bytes: when the line exceeds
72 characters it emits the first 72 characters, then a line break, then a
single continuation space, then the next 72 characters, repeating; lines
of at most 72 characters are emitted unchanged. -/
theorem section_fold_chars :
    (∀ sec : Section, ∃ rest, sectionStr sec
        = foldName ("Name: ".data ++ sec.name) ++ rest)
    ∧ (∀ s : Str, s.length ≤ 72 → foldName s = s)
    ∧ (∀ s : Str, 72 < s.length →
        foldName s = s.take 72 ++ '\n' :: ' ' :: foldName (s.drop 72)) := by
  refine ⟨fun sec => ?_, foldName_of_le, foldName_of_gt⟩
  refine ⟨'\n' :: ("Digest-Algorithms: ".data
      ++ List.intercalate " ".data ((sectionAlgoOrder sec.digests).map upperStr) ++ '\n'
      :: ((sectionAlgoOrder sec.digests).map (digestLine sec.digests)).flatten), ?_⟩
  simp [sectionStr, List.append_assoc]

theorem section_fold_chars_witness :
    foldName (List.replicate 73 'a')
      = (List.replicate 73 'a').take 72
        ++ '\n' :: ' ' :: foldName ((List.replicate 73 'a').drop 72) :=
  section_fold_chars.2.2 (List.replicate 73 'a') (by decide)

theorem make_signed_copy_fold (entries : List (Str × List Nat))
    (out0 : List (Str × ZContent)) :
    entries.foldl
      (fun acc f =>
        if ignore_certain_metainf_files f.1 then acc
        else acc ++ [(f.1, ZContent.bytes f.2)])
      out0
    = out0 ++ (entries.filter (fun f => !ignore_certain_metainf_files f.1)).map
        (fun f => (f.1, ZContent.bytes f.2)) := by
  induction entries generalizing out0 with
  | nil => simp
  | cons f rest ih =>
    cases h : ignore_certain_metainf_files f.1 with
    | true => simp [List.foldl_cons, h, ih, List.filter_cons]
    | false => simp [List.foldl_cons, h, ih, List.filter_cons, List.append_assoc]

theorem mem_pyBasename_ne_slash (p : Str) : ∀ c ∈ pyBasename p, c ≠ '/' := by
  intro c hc
  unfold pyBasename at hc
  rw [List.mem_reverse] at hc
  have h1 := List.mem_takeWhile_imp (p := fun c => decide (c ≠ '/')) hc
  exact of_decide_eq_true h1

theorem mem_pySplitext_fst (p : Str) : ∀ c ∈ (pySplitext p).1, c ∈ p := by
  intro c hc
  rw [pySplitext] at hc
  split at hc
  · simp only [] at hc
    split at hc
    · simpa using hc
    · simp only at hc
      exact List.take_subset _ _ hc
  · simpa using hc

theorem sigbase_head_ne_slash (sigpath : Str) :
    ((pySplitext (pyBasename sigpath)).1).head? ≠ some '/' := by
  intro h
  have hmem : '/' ∈ (pySplitext (pyBasename sigpath)).1 := by
    cases he : (pySplitext (pyBasename sigpath)).1 with
    | nil => rw [he] at h; simp at h
    | cons b t =>
      rw [he] at h
      simp at h
      exact h ▸ List.mem_cons_self b t
  exact mem_pyBasename_ne_slash sigpath '/'
    (mem_pySplitext_fst (pyBasename sigpath) '/' hmem) rfl

theorem pyJoin_metainf (b : Str) (hb : b.head? ≠ some '/') :
    pyJoin "META-INF".data b = "META-INF/".data ++ b := by
  rw [pyJoin, if_neg (by simpa using hb), if_neg (by decide)]
  have : ("META-INF/".data : Str) = "META-INF".data ++ ['/'] := by decide
  simp [this, List.append_assoc]

/-- C1: a successful `make_signed(outpath, sigpath, signed_manifest,
signature)` writes exactly, in order: `META-INF/<base>.rsa` with the
signature blob first; every source-archive entry in original order except
those matching the reserved META-INF globs; `META-INF/manifest.mf` with
the serialized Manifest text; `META-INF/<base>.sf` with `signed_manifest`;
and, only when an `ids` payload was supplied at construction,
`META-INF/ids.json` with the raw ids bytes last — `<base>` being `sigpath`
with extension and directory component stripped. -/
theorem make_signed_output_layout :
    ∀ (E : DigestEngine) (x : XPIFile) (fs : List Str)
      (outpath sigpath : Str) (sm sig : List Nat),
      outpath.isEmpty = false → outpath ∉ fs →
      make_signed E x fs outpath sigpath sm sig =
        (.ok (("META-INF/".data ++ (pySplitext (pyBasename sigpath)).1 ++ ".rsa".data,
               ZContent.bytes sig)
          :: ((x.entries.filter (fun f => !ignore_certain_metainf_files f.1)).map
                (fun f => (f.1, ZContent.bytes f.2))
            ++ [("META-INF/manifest.mf".data, ZContent.text (manifestStr (xpiManifest E x))),
                ("META-INF/".data ++ (pySplitext (pyBasename sigpath)).1 ++ ".sf".data,
                 ZContent.bytes sm)]
            ++ match x.ids with
               | some i => [("META-INF/ids.json".data, ZContent.bytes i)]
               | none => [])),
         fs ++ [outpath]) := by
  intro E x fs outpath sigpath sm sig h1 h2
  rw [make_signed, if_neg (by simp [h1]), if_neg h2]
  simp only []
  rw [make_signed_copy_fold, pyJoin_metainf _ (sigbase_head_ne_slash sigpath)]
  simp [List.append_assoc]

theorem make_signed_output_layout_witness :
    make_signed trivialEngine
        ⟨[("content.js".data, [1]), ("META-INF/old.sf".data, [2])], none⟩
        [] "out.xpi".data "dir/mozilla.rsa".data [3] [4]
      = (.ok [("META-INF/mozilla.rsa".data, ZContent.bytes [4]),
              ("content.js".data, ZContent.bytes [1]),
              ("META-INF/manifest.mf".data, ZContent.text
                ("Manifest-Version: 1.0\n\nName: content.js\n"
                  ++ "Digest-Algorithms: MD5 SHA1\nMD5-Digest: \nSHA1-Digest: \n\n").data),
              ("META-INF/mozilla.sf".data, ZContent.bytes [3])],
         ["out.xpi".data]) := by
  rw [make_signed_output_layout trivialEngine
    ⟨[("content.js".data, [1]), ("META-INF/old.sf".data, [2])], none⟩
    [] "out.xpi".data "dir/mozilla.rsa".data [3] [4] (by decide) (by decide)]
  simp only [Prod.mk.injEq, Except.ok.injEq]
  refine ⟨?_, rfl⟩
  decide

/-- C9: with an empty ids payload (`ids = b""`, not `None` but falsy) the
Manifest gets no `META-INF/ids.json` section (`__init__` tests truthiness),
yet a successful `make_signed` still writes a `META-INF/ids.json` entry
with empty content as the last entry (`make_signed` tests `is not None`). -/
theorem empty_ids_truthiness_mismatch :
    ∀ (E : DigestEngine) (entries : List (Str × List Nat)) (fs : List Str)
      (outpath sigpath : Str) (sm sig : List Nat),
      (∀ sec ∈ xpiSections E ⟨entries, some []⟩, sec.name ≠ "META-INF/ids.json".data)
      ∧ (outpath.isEmpty = false → outpath ∉ fs →
        ∃ out, make_signed E ⟨entries, some []⟩ fs outpath sigpath sm sig
            = (.ok out, fs ++ [outpath])
          ∧ out.getLast? = some ("META-INF/ids.json".data, ZContent.bytes [])) := by
  intro E entries fs outpath sigpath sm sig
  constructor
  · intro sec hsec heq
    simp only [xpiSections, List.isEmpty_nil, if_pos, List.append_nil] at hsec
    rcases List.mem_map.1 hsec with ⟨f, hf, rfl⟩
    have hpred := (List.mem_filter.1 hf).2
    simp only [Bool.not_eq_true', Bool.or_eq_false_iff] at hpred
    have hign : ignore_certain_metainf_files f.1 = false := hpred.2
    have heq2 : f.1 = "META-INF/ids.json".data := heq
    rw [heq2] at hign
    exact absurd hign (by decide)
  · intro h1 h2
    rw [make_signed, if_neg (by simp [h1]), if_neg h2]
    refine ⟨_, rfl, ?_⟩
    simp

theorem empty_ids_truthiness_mismatch_witness :
    ∃ out, make_signed trivialEngine ⟨[("content.js".data, [1])], some []⟩
        [] "out.xpi".data "mozilla.rsa".data [] []
        = (.ok out, ["out.xpi".data])
      ∧ out.getLast? = some ("META-INF/ids.json".data, ZContent.bytes []) :=
  (empty_ids_truthiness_mismatch trivialEngine [("content.js".data, [1])]
    [] "out.xpi".data "mozilla.rsa".data [] []).2 (by decide) (by decide)
